import Mathlib

/-!
Verification of the Annoted browser extension's annotation engine.

This development shallowly embeds the canonical content-script variant
(the one with highlighter, eraser, move, undo/redo, localStorage session
persistence, URL-based sharing, and full-page PDF capture) together with
the shared drawing utilities, and proves the testable properties stated
in the specification about the command log / undo-redo engine, the
share-link pipeline, the full-page capture tiling, the stroke-commit
logic and the hit-testing logic.

Naming note: the source's `Annotation` / `TextAnnotation` records are
embedded as `Ann` / `TextAnn` (with `anns` / `textAnns` for the two
store collections, and `moveAnn` / `deleteText` etc. for the command
variants); all field and constructor names otherwise follow the source.
-/

namespace Annoted

/-! ## Data model (from utils/types.ts and the content script) -/

/-- Logical color palette, from utils/types.ts `Color`. -/
inductive Color
  | white
  | red
  | yellow
  | blue
deriving DecidableEq, Repr

/-- The kind tag of a canvas record, the `type` field of the source's
annotation interface: pen, highlighter, rectangle, circle or arrow. -/
inductive AnnType
  | pen
  | highlighter
  | rectangle
  | circle
  | arrow
deriving DecidableEq, Repr

/-- Shape fill mode, from utils/types.ts `ShapeMode`. -/
inductive ShapeMode
  | outline
  | filled
deriving DecidableEq, Repr

/-- Active tool, from utils/types.ts `Tool` (the source's `null` tool is
modelled as `Option Tool = none`). -/
inductive Tool
  | pen
  | highlighter
  | rectangle
  | circle
  | arrow
  | text
  | move
  | eraser
deriving DecidableEq, Repr

/-- A point in document coordinates. -/
structure Point where
  x : Int
  y : Int
deriving DecidableEq, Repr

/-- A stroke or shape record (the source's `Annotation` interface):
id, type, start point, optional end point (shapes), optional path
(pen/highlighter), color, optional shape mode and optional pen width. -/
structure Ann where
  id : String
  type : AnnType
  start : Point
  endPt : Option Point
  path : Option (List Point)
  color : Color
  shapeMode : Option ShapeMode
  penWidth : Option Int
deriving DecidableEq, Repr

/-- A text record (the source's `TextAnnotation` interface). -/
structure TextAnn where
  id : String
  x : Int
  y : Int
  text : String
  color : Color
deriving DecidableEq, Repr

/-- The command union of the undo/redo engine, one constructor per
variant of the source's `Command` type. -/
inductive Command
  | addPen (ann : Ann)
  | addHighlighter (ann : Ann)
  | addShape (ann : Ann)
  | addText (ann : TextAnn)
  | editText (id : String) (oldText newText : String)
  | moveAnn (index : Nat) (oldStart : Point) (oldEnd : Option Point)
      (oldPath : Option (List Point)) (newStart : Point) (newEnd : Option Point)
      (newPath : Option (List Point))
  | moveText (id : String) (oldPos newPos : Point)
  | deleteText (ann : TextAnn)
  | delete (targetId : String) (deletedAnn : Option Ann) (deletedText : Option TextAnn)
  | clearAll (deletedAnns : List Ann) (deletedTexts : List TextAnn)
deriving DecidableEq, Repr

/-- The two flat store collections (`annotations` and `textAnnotations`
arrays of the content script). -/
structure Store where
  anns : List Ann
  textAnns : List TextAnn
deriving DecidableEq, Repr

/-- Both collections empty. -/
def emptyStore : Store := ⟨[], []⟩

/-! ## Store mutation helpers

The source mutates the first array element found by `Array.prototype.find`
or indexes directly; these helpers reproduce exactly that: update the
first matching element, update the element at an index when it exists,
and `List.eraseP` models `findIndex` followed by `splice(i, 1)`. -/

/-- Apply `f` to the first element satisfying `p`, leaving the rest
unchanged (the effect of `find` followed by in-place mutation). -/
def updateFirst (p : α → Bool) (f : α → α) : List α → List α
  | [] => []
  | a :: rest => if p a then f a :: rest else a :: updateFirst p f rest

/-- Apply `f` to the element at position `i` when it exists (the effect
of `arr[i]` followed by a guarded in-place mutation). -/
def modifyAt (f : α → α) : Nat → List α → List α
  | _, [] => []
  | 0, a :: rest => f a :: rest
  | n + 1, a :: rest => a :: modifyAt f n rest

/-- The move effect on a single record: `start` is always overwritten;
`end` and `path` only when the command carries a new value (the source's
`if (cmd.newEnd) ...` / `if (cmd.newPath) ...` guards). -/
def applyMoveFields (newStart : Point) (newEnd : Option Point)
    (newPath : Option (List Point)) (a : Ann) : Ann :=
  { a with
    start := newStart
    endPt := match newEnd with | some e => some e | none => a.endPt
    path := match newPath with | some p => some p | none => a.path }

/-- The forward effect of one command on the two stores.  This is the
shared per-command body of both `executeCommand` and `replayCommands`
in the source (their switch statements are textually identical). -/
def applyCommand (s : Store) (cmd : Command) : Store :=
  match cmd with
  | .addPen ann | .addHighlighter ann | .addShape ann =>
      { s with anns := s.anns ++ [ann] }
  | .addText ann =>
      { s with textAnns := s.textAnns ++ [ann] }
  | .editText id _ newText =>
      let f := fun (t : TextAnn) => { t with text := newText }
      { s with textAnns := updateFirst (fun t => t.id == id) f s.textAnns }
  | .moveAnn index _ _ _ newStart newEnd newPath =>
      { s with anns := modifyAt (applyMoveFields newStart newEnd newPath) index s.anns }
  | .moveText id _ newPos =>
      let f := fun (t : TextAnn) => { t with x := newPos.x, y := newPos.y }
      { s with textAnns := updateFirst (fun t => t.id == id) f s.textAnns }
  | .deleteText ann =>
      { s with textAnns := s.textAnns.eraseP (fun t => t.id == ann.id) }
  | .delete targetId deletedAnn deletedText =>
      match deletedAnn with
      | some _ => { s with anns := s.anns.eraseP (fun a => a.id == targetId) }
      | none =>
        match deletedText with
        | some _ => { s with textAnns := s.textAnns.eraseP (fun t => t.id == targetId) }
        | none => s
  | .clearAll _ _ => emptyStore

/-- `replayCommands`: clear both stores, then apply every command's
forward effect in array order. -/
def replayCommands (cmds : List Command) : Store :=
  cmds.foldl applyCommand emptyStore

/-- The engine state: the two stores plus the `undoStack` and
`redoStack` command arrays (array order, most recent last, exactly as
the source pushes and pops at the array end). -/
structure EngineState where
  store : Store
  undoStack : List Command
  redoStack : List Command
deriving DecidableEq, Repr

/-- The engine state before any command: empty stores, empty stacks. -/
def initialEngineState : EngineState := ⟨emptyStore, [], []⟩

/-- `executeCommand`: apply the command to the live stores, push a copy
onto the undo stack and clear the redo stack. -/
def executeCommand (st : EngineState) (cmd : Command) : EngineState :=
  { store := applyCommand st.store cmd
    undoStack := st.undoStack ++ [cmd]
    redoStack := [] }

/-- `undo`: no-op on an empty undo stack; otherwise pop the last
command onto the redo stack and rebuild the stores by replaying the
remaining undo stack from empty. -/
def undo (st : EngineState) : EngineState :=
  match st.undoStack.getLast? with
  | none => st
  | some cmd =>
      { store := replayCommands st.undoStack.dropLast
        undoStack := st.undoStack.dropLast
        redoStack := st.redoStack ++ [cmd] }

/-- `redo`: no-op on an empty redo stack; otherwise pop the most
recently undone command back onto the undo stack and replay the full
undo stack from empty. -/
def redo (st : EngineState) : EngineState :=
  match st.redoStack.getLast? with
  | none => st
  | some cmd =>
      { store := replayCommands (st.undoStack ++ [cmd])
        undoStack := st.undoStack ++ [cmd]
        redoStack := st.redoStack.dropLast }

/-! ## Replay determinism (C1) -/

/-- Folding `executeCommand` only folds `applyCommand` on the store
component. -/
theorem foldl_executeCommand_store (cmds : List Command) (st : EngineState) :
    (cmds.foldl executeCommand st).store = cmds.foldl applyCommand st.store := by
  induction cmds generalizing st with
  | nil => rfl
  | cons c cs ih => simpa [executeCommand] using ih (executeCommand st c)

/-- Folding `executeCommand` appends the executed commands to the undo
stack in order. -/
theorem foldl_executeCommand_undoStack (cmds : List Command) (st : EngineState) :
    (cmds.foldl executeCommand st).undoStack = st.undoStack ++ cmds := by
  induction cmds generalizing st with
  | nil => simp
  | cons c cs ih =>
      simp only [List.foldl_cons]
      rw [ih (executeCommand st c)]
      simp [executeCommand]

/-- Claim C1: replaying any command sequence from the empty stores
(`replayCommands`) produces exactly the store contents obtained by
executing the commands one at a time through `executeCommand` starting
from the initial engine state; moreover the resulting undo stack is the
executed sequence itself, so replaying the full undo stack always
reproduces the current store contents. -/
theorem replay_determinism (cmds : List Command) :
    (cmds.foldl executeCommand initialEngineState).store = replayCommands cmds ∧
    (cmds.foldl executeCommand initialEngineState).undoStack = cmds ∧
    (cmds.foldl executeCommand initialEngineState).store =
      replayCommands (cmds.foldl executeCommand initialEngineState).undoStack := by
  have hs : (cmds.foldl executeCommand initialEngineState).store = replayCommands cmds :=
    foldl_executeCommand_store cmds initialEngineState
  have hu : (cmds.foldl executeCommand initialEngineState).undoStack = cmds := by
    simpa [initialEngineState] using foldl_executeCommand_undoStack cmds initialEngineState
  exact ⟨hs, hu, by rw [hu]; exact hs⟩

/-! ## Undo/redo inverse law (C2) -/

/-- Claim C2: for any engine state with at least one committed command
whose stores satisfy the replay invariant (store contents equal the
replay of the undo stack, which holds for every state the engine
produces), `undo` followed by `redo` restores the entire state —
in particular exactly the Annotation and TextAnnotation store contents
that held immediately before the undo. -/
theorem undo_redo_roundtrip (st : EngineState)
    (hne : st.undoStack ≠ [])
    (hinv : st.store = replayCommands st.undoStack) :
    redo (undo st) = st := by
  obtain ⟨store, undoStack, redoStack⟩ := st
  simp only at hne hinv
  unfold undo
  split
  next hnone =>
    dsimp only at hnone
    rw [List.getLast?_eq_getLast_of_ne_nil hne] at hnone
    exact Option.noConfusion hnone
  next cmd hsome =>
    dsimp only at hsome
    unfold redo
    split
    next hnone =>
      dsimp only at hnone
      rw [List.getLast?_concat] at hnone
      exact Option.noConfusion hnone
    next cmd2 hsome2 =>
      dsimp only at hsome2
      rw [List.getLast?_concat] at hsome2
      obtain rfl : cmd = cmd2 := Option.some.inj hsome2
      have hrestore : undoStack.dropLast ++ [cmd] = undoStack :=
        List.dropLast_append_getLast? cmd hsome
      simp only [List.dropLast_concat, hrestore, EngineState.mk.injEq]
      simp [hinv]

/-- Witness for C2 at a concrete state: one committed `clearAll`
command, empty redo stack, stores given by replay. -/
theorem undo_redo_roundtrip_witness :
    redo (undo { store := replayCommands [Command.clearAll [] []]
                 undoStack := [Command.clearAll [] []]
                 redoStack := [] }) =
      { store := replayCommands [Command.clearAll [] []]
        undoStack := [Command.clearAll [] []]
        redoStack := [] } :=
  undo_redo_roundtrip _ (by simp) rfl

/-- Engine states reachable through the engine's three operations. -/
inductive Reachable : EngineState → Prop
  | init : Reachable initialEngineState
  | exec (st : EngineState) (cmd : Command) : Reachable st → Reachable (executeCommand st cmd)
  | stepUndo (st : EngineState) : Reachable st → Reachable (undo st)
  | stepRedo (st : EngineState) : Reachable st → Reachable (redo st)

/-- Every state the engine can reach satisfies the replay invariant
assumed by `undo_redo_roundtrip`: the live stores equal the replay of
the undo stack. -/
theorem reachable_store_eq_replay (st : EngineState) (h : Reachable st) :
    st.store = replayCommands st.undoStack := by
  induction h with
  | init => rfl
  | exec st cmd _ ih =>
      show applyCommand st.store cmd = replayCommands (st.undoStack ++ [cmd])
      rw [ih]
      simp [replayCommands, List.foldl_append]
  | stepUndo st _ ih =>
      unfold undo
      split
      · exact ih
      · rfl
  | stepRedo st _ ih =>
      unfold redo
      split
      · exact ih
      · rfl

/-! ## New edit clears redo (C3) -/

/-- Claim C3: after any `executeCommand` the redo stack is empty, no
matter what it held beforehand. -/
theorem executeCommand_clears_redoStack (st : EngineState) (cmd : Command) :
    (executeCommand st cmd).redoStack = [] := rfl

/-! ## Mouse-up commit logic (C4)

`handleMouseUp` is embedded as the sequence of commands it feeds to
`executeCommand`, one definition per source branch in source order:
the text-drag branch, the record-drag branch, then the drawing branch
with its per-tool commit logic. -/

/-- The `draggingText` record of the content script. -/
structure DragTextState where
  id : String
  offsetX : Int
  offsetY : Int
deriving DecidableEq, Repr

/-- The interaction state read by `handleMouseUp`: active tool, drawing
flag, start point, recorded freehand path, last mouse position, current
style settings, and the three drag-state snapshot variables. -/
structure UIState where
  activeTool : Option Tool
  isDrawing : Bool
  startPoint : Option Point
  currentPath : List Point
  mouse : Point
  selectedColor : Color
  penWidth : Int
  shapeMode : ShapeMode
  draggingText : Option DragTextState
  draggingAnn : Option Nat
  moveStartPos : Option Point
  moveStartAnn : Option Ann
  moveStartText : Option TextAnn
deriving DecidableEq, Repr

/-- The `draggingText` branch of `handleMouseUp`: when the dragged text
is still in the store, commit a `moveText` command from the pointer-down
snapshot position to the current (preview-updated) position. -/
def mouseUpDragText (dt : DragTextState) (mst : TextAnn) (store : Store) : List Command :=
  match store.textAnns.find? (fun t => t.id == dt.id) with
  | some t => [Command.moveText t.id ⟨mst.x, mst.y⟩ ⟨t.x, t.y⟩]
  | none => []

/-- The dragged-record branch of `handleMouseUp`: commit a move command
recording the dragged record's post-drag geometry against the snapshot
taken at pointer-down.  (When the dragged index is out of range the
source faults before reaching `executeCommand`, so no command is
committed; that impossible-in-practice case is the `none` branch.) -/
def mouseUpDragAnn (i : Nat) (mstAnn : Ann) (store : Store) : List Command :=
  match store.anns[i]? with
  | some ann =>
      [Command.moveAnn i mstAnn.start mstAnn.endPt mstAnn.path ann.start ann.endPt ann.path]
  | none => []

/-- The drawing branch of `handleMouseUp` (after the early return when
not drawing, no active tool or no start point): pen and highlighter
strokes are committed only when the recorded path has more than one
point, shape tools always commit a shape from the start point to the
last mouse position, and the remaining tools commit nothing. -/
def mouseUpDrawing (ui : UIState) (freshId : String) : List Command :=
  if !ui.isDrawing then []
  else
    match ui.activeTool, ui.startPoint with
    | none, _ => []
    | _, none => []
    | some tool, some sp =>
      match tool with
      | .pen =>
          match ui.currentPath with
          | p0 :: p1 :: rest =>
              [Command.addPen
                { id := freshId, type := .pen, start := p0, endPt := none,
                  path := some (p0 :: p1 :: rest), color := ui.selectedColor,
                  shapeMode := none, penWidth := some ui.penWidth }]
          | _ => []
      | .highlighter =>
          match ui.currentPath with
          | p0 :: p1 :: rest =>
              [Command.addHighlighter
                { id := freshId, type := .highlighter, start := p0, endPt := none,
                  path := some (p0 :: p1 :: rest), color := ui.selectedColor,
                  shapeMode := none, penWidth := some ui.penWidth }]
          | _ => []
      | .rectangle =>
          [Command.addShape
            { id := freshId, type := .rectangle, start := sp, endPt := some ui.mouse,
              path := none, color := ui.selectedColor,
              shapeMode := some ui.shapeMode, penWidth := some ui.penWidth }]
      | .circle =>
          [Command.addShape
            { id := freshId, type := .circle, start := sp, endPt := some ui.mouse,
              path := none, color := ui.selectedColor,
              shapeMode := some ui.shapeMode, penWidth := some ui.penWidth }]
      | .arrow =>
          [Command.addShape
            { id := freshId, type := .arrow, start := sp, endPt := some ui.mouse,
              path := none, color := ui.selectedColor,
              shapeMode := some ui.shapeMode, penWidth := some ui.penWidth }]
      | _ => []

/-- `handleMouseUp`, as the commands it commits: the text-drag branch,
then the record-drag branch, then the drawing branch.  `freshId` stands
for the id the source generates from the clock and a random number. -/
def handleMouseUpCommands (ui : UIState) (store : Store) (freshId : String) : List Command :=
  match ui.draggingText, ui.moveStartPos, ui.moveStartText with
  | some dt, some _, some mst => mouseUpDragText dt mst store
  | _, _, _ =>
    match ui.draggingAnn, ui.moveStartPos, ui.moveStartAnn with
    | some i, some _, some mstAnn => mouseUpDragAnn i mstAnn store
    | _, _, _ => mouseUpDrawing ui freshId

/-- The text-drag branch never commits a stroke command. -/
theorem mouseUpDragText_no_stroke (dt : DragTextState) (mst : TextAnn) (store : Store)
    (cmd : Command) (h : cmd ∈ mouseUpDragText dt mst store) (a : Ann) :
    cmd ≠ Command.addPen a ∧ cmd ≠ Command.addHighlighter a := by
  unfold mouseUpDragText at h
  split at h <;> simp_all

/-- The record-drag branch never commits a stroke command. -/
theorem mouseUpDragAnn_no_stroke (i : Nat) (mstAnn : Ann) (store : Store)
    (cmd : Command) (h : cmd ∈ mouseUpDragAnn i mstAnn store) (a : Ann) :
    cmd ≠ Command.addPen a ∧ cmd ≠ Command.addHighlighter a := by
  unfold mouseUpDragAnn at h
  split at h <;> simp_all

/-- In the drawing branch, a committed stroke command always carries
the full recorded path, which has more than one point. -/
theorem mouseUpDrawing_stroke (ui : UIState) (freshId : String)
    (cmd : Command) (a : Ann)
    (hmem : cmd ∈ mouseUpDrawing ui freshId)
    (hkind : cmd = Command.addPen a ∨ cmd = Command.addHighlighter a) :
    1 < ui.currentPath.length ∧ a.path = some ui.currentPath := by
  obtain ⟨topt, drawing, spopt, path, mouse, color, pw, sm, dt, da, mp, ma, mt⟩ := ui
  cases drawing with
  | false => simp [mouseUpDrawing] at hmem
  | true =>
    cases topt with
    | none => simp [mouseUpDrawing] at hmem
    | some tool =>
      cases spopt with
      | none => simp [mouseUpDrawing] at hmem
      | some sp =>
        cases tool with
        | pen =>
          cases path with
          | nil => simp [mouseUpDrawing] at hmem
          | cons p0 path1 =>
            cases path1 with
            | nil => simp [mouseUpDrawing] at hmem
            | cons p1 rest =>
              simp only [mouseUpDrawing, Bool.not_true, List.mem_singleton,
                Bool.false_eq_true, if_false] at hmem
              subst hmem
              rcases hkind with h | h
              · injection h with h2
                subst h2
                exact ⟨by simp, rfl⟩
              · exact Command.noConfusion h
        | highlighter =>
          cases path with
          | nil => simp [mouseUpDrawing] at hmem
          | cons p0 path1 =>
            cases path1 with
            | nil => simp [mouseUpDrawing] at hmem
            | cons p1 rest =>
              simp only [mouseUpDrawing, Bool.not_true, List.mem_singleton,
                Bool.false_eq_true, if_false] at hmem
              subst hmem
              rcases hkind with h | h
              · exact Command.noConfusion h
              · injection h with h2
                subst h2
                exact ⟨by simp, rfl⟩
        | rectangle =>
          simp only [mouseUpDrawing, Bool.not_true, List.mem_singleton,
            Bool.false_eq_true, if_false] at hmem
          subst hmem
          rcases hkind with h | h <;> exact Command.noConfusion h
        | circle =>
          simp only [mouseUpDrawing, Bool.not_true, List.mem_singleton,
            Bool.false_eq_true, if_false] at hmem
          subst hmem
          rcases hkind with h | h <;> exact Command.noConfusion h
        | arrow =>
          simp only [mouseUpDrawing, Bool.not_true, List.mem_singleton,
            Bool.false_eq_true, if_false] at hmem
          subst hmem
          rcases hkind with h | h <;> exact Command.noConfusion h
        | text => simp [mouseUpDrawing] at hmem
        | move => simp [mouseUpDrawing] at hmem
        | eraser => simp [mouseUpDrawing] at hmem

/-- Claim C4: on mouse-up, an `addPen` or `addHighlighter` command is
committed only when the recorded path holds at least two points (so a
one-point click commits nothing), and the committed record stores the
full recorded path, hence every committed stroke has at least two
points. -/
theorem committed_stroke_has_two_points (ui : UIState) (store : Store)
    (freshId : String) (cmd : Command) (a : Ann)
    (hmem : cmd ∈ handleMouseUpCommands ui store freshId)
    (hkind : cmd = Command.addPen a ∨ cmd = Command.addHighlighter a) :
    1 < ui.currentPath.length ∧ a.path = some ui.currentPath ∧
      2 ≤ (a.path.getD []).length := by
  unfold handleMouseUpCommands at hmem
  split at hmem
  · rcases hkind with rfl | rfl <;>
      [exact absurd rfl (mouseUpDragText_no_stroke _ _ _ _ hmem a).1;
       exact absurd rfl (mouseUpDragText_no_stroke _ _ _ _ hmem a).2]
  · split at hmem
    · rcases hkind with rfl | rfl <;>
        [exact absurd rfl (mouseUpDragAnn_no_stroke _ _ _ _ hmem a).1;
         exact absurd rfl (mouseUpDragAnn_no_stroke _ _ _ _ hmem a).2]
    · obtain ⟨hlen, hpath⟩ := mouseUpDrawing_stroke ui freshId cmd a hmem hkind
      exact ⟨hlen, hpath, by rw [hpath]; simpa using hlen⟩

/-- A concrete two-point pen interaction for the C4 witness. -/
def strokeUI : UIState :=
  { activeTool := some .pen, isDrawing := true, startPoint := some ⟨0, 0⟩,
    currentPath := [⟨0, 0⟩, ⟨1, 1⟩], mouse := ⟨1, 1⟩, selectedColor := .red,
    penWidth := 4, shapeMode := .outline, draggingText := none,
    draggingAnn := none, moveStartPos := none, moveStartAnn := none,
    moveStartText := none }

/-- The record that interaction commits. -/
def strokeAnnRec : Ann :=
  { id := "w", type := .pen, start := ⟨0, 0⟩, endPt := none,
    path := some [⟨0, 0⟩, ⟨1, 1⟩], color := .red, shapeMode := none,
    penWidth := some 4 }

/-- Witness for C4 at the concrete two-point pen interaction. -/
theorem committed_stroke_has_two_points_witness :
    1 < strokeUI.currentPath.length ∧
      strokeAnnRec.path = some strokeUI.currentPath ∧
      2 ≤ (strokeAnnRec.path.getD []).length :=
  committed_stroke_has_two_points strokeUI emptyStore "w"
    (Command.addPen strokeAnnRec) strokeAnnRec (by decide) (Or.inl rfl)

/-! ## Share-link restore validation (C5) -/

/-- The shape memory of the toolbar (`lastUsedShape`). -/
inductive ShapeType
  | rectangle
  | circle
  | arrow
deriving DecidableEq, Repr

/-- The tool-state snapshot carried by a share payload or stored
session.  Every field is optional because the payload is parsed from
JSON produced by an arbitrary counterpart. -/
structure ToolState where
  activeTool : Option Tool
  color : Option Color
  penWidth : Option Int
  shapeType : Option ShapeType
  shapeFillMode : Option ShapeMode
deriving DecidableEq, Repr

/-- A decoded share payload: version, normalized page URL, optional
tool state, optional command log (the source defaults a missing
`pageUrl` to the empty string before comparing). -/
structure Session where
  v : Int
  pageUrl : String
  toolState : Option ToolState
  actions : Option (List Command)
deriving DecidableEq, Repr

/-- The whole per-page application state touched by a restore: the
engine plus the five tool-state variables. -/
structure AppState where
  engine : EngineState
  activeTool : Option Tool
  selectedColor : Color
  penWidth : Int
  lastUsedShape : ShapeType
  shapeMode : ShapeMode
deriving DecidableEq, Repr

/-- First match of the `annoted=([^&]+)` pattern in a character list:
scan for the `annoted=` marker and capture the non-empty run of
characters up to the next `&`; an empty capture makes the scan continue
at the next position, as the source's regex engine does. -/
def extractAnnotedAux : List Char → Option (List Char)
  | [] => none
  | c :: rest =>
      if List.isPrefixOf "annoted=".toList (c :: rest) then
        let captured := ((c :: rest).drop 8).takeWhile (fun ch => ch != '&')
        if captured.isEmpty then extractAnnotedAux rest else some captured
      else extractAnnotedAux rest

/-- `hash.match(/annoted=([^&]+)/)`, returning the captured group. -/
def extractAnnoted (hash : String) : Option String :=
  (extractAnnotedAux hash.toList).map fun l => ⟨l⟩

/-- Restoring a tool-state snapshot, with the source's falsy-value
defaults: no tool, red, width 4, rectangle, outline. -/
def applyToolState (ts : ToolState) (st : AppState) : AppState :=
  { st with
    activeTool := ts.activeTool
    selectedColor := ts.color.getD .red
    penWidth := match ts.penWidth with | some w => if w = 0 then 4 else w | none => 4
    lastUsedShape := ts.shapeType.getD .rectangle
    shapeMode := ts.shapeFillMode.getD .outline }

/-- Restoring a replayed command log: the stores are rebuilt by replay
and the undo stack becomes a copy of the restored actions (the redo
stack is not touched by `restoreFromUrl`). -/
def applyRestoredActions (acts : List Command) (st : AppState) : AppState :=
  { st with engine :=
      { store := replayCommands acts, undoStack := acts, redoStack := st.engine.redoStack } }

/-- `restoreFromUrl`: extract the fragment parameter, decompress and
parse it (`decode` stands for `LZString.decompressFromEncodedURIComponent`
followed by `JSON.parse`; `none` covers both a falsy decompression
result and a parse exception), check the version, check the normalized
page URL, and only then apply the tool state and replay the actions.
Returns whether the restore happened together with the resulting
state. -/
def restoreFromUrl (decode : String → Option Session) (currentUrl hash : String)
    (st : AppState) : Bool × AppState :=
  match extractAnnoted hash with
  | none => (false, st)
  | some compressed =>
    match decode compressed with
    | none => (false, st)
    | some session =>
      if session.v ≠ 1 then (false, st)
      else if currentUrl ≠ session.pageUrl then (false, st)
      else
        let st1 := match session.toolState with
          | some ts => applyToolState ts st
          | none => st
        let st2 := match session.actions with
          | some acts => applyRestoredActions acts st1
          | none => st1
        (true, st2)

/-- Claim C5: whenever the fragment payload fails validation — no
well-formed `annoted=` parameter, a malformed compressed body (decode
yields nothing), a version other than 1, or a page URL differing from
the current normalized URL — `restoreFromUrl` returns `false` and the
entire application state (command log, stores and tool state) is left
untouched. -/
theorem restoreFromUrl_rejects_invalid
    (decode : String → Option Session) (currentUrl hash : String) (st : AppState)
    (hrej : ∀ c session, extractAnnoted hash = some c → decode c = some session →
        session.v ≠ 1 ∨ session.pageUrl ≠ currentUrl) :
    restoreFromUrl decode currentUrl hash st = (false, st) := by
  unfold restoreFromUrl
  split
  next => rfl
  next c hc =>
    split
    next => rfl
    next session hd =>
      rcases hrej c session hc hd with hv | hu
      · rw [if_pos hv]
      · by_cases hv1 : session.v ≠ 1
        · rw [if_pos hv1]
        · rw [if_neg hv1, if_pos (Ne.symm hu)]

/-- A concrete state for the C5 witness. -/
def plainAppState : AppState :=
  { engine := initialEngineState, activeTool := none, selectedColor := .red,
    penWidth := 4, lastUsedShape := .rectangle, shapeMode := .outline }

/-- A decoder returning a version-2 payload, for the C5 witness. -/
def versionTwoDecode : String → Option Session :=
  fun _ => some { v := 2, pageUrl := "https://example.com/a", toolState := none, actions := none }

/-- Witness for C5: a fragment whose payload decodes to version 2 is
rejected and the state is returned unchanged. -/
theorem restoreFromUrl_rejects_invalid_witness :
    restoreFromUrl versionTwoDecode "https://example.com/a" "#annoted=abc" plainAppState =
      (false, plainAppState) :=
  restoreFromUrl_rejects_invalid versionTwoDecode "https://example.com/a" "#annoted=abc"
    plainAppState
    (fun _ session _ hd => by
      obtain rfl : _ = session := Option.some.inj hd
      left
      decide)

/-! ## Share-link size gate (C6) -/

/-- Share generation outcome tag. -/
inductive ShareStatus
  | safe
  | warning
  | blocked
deriving DecidableEq, Repr

/-- The result record of `generateShareUrl`. -/
structure ShareResult where
  url : Option String
  size : Nat
  status : ShareStatus
deriving DecidableEq, Repr

/-- The soft character-count threshold on the compressed payload. -/
def SAFE_LIMIT : Nat := 6000

/-- The hard character-count threshold on the compressed payload. -/
def HARD_LIMIT : Nat := 8000

/-- `generateShareUrl` given the compressed serialization of the
session (the output of `LZString.compressToEncodedURIComponent` on the
session JSON) and the normalized page URL: block above the hard limit,
warn above the safe limit, otherwise return the URL as safe. -/
def generateShareUrl (compressed baseUrl : String) : ShareResult :=
  if compressed.length > HARD_LIMIT then
    { url := none, size := compressed.length, status := .blocked }
  else if compressed.length > SAFE_LIMIT then
    { url := some (baseUrl ++ "#annoted=" ++ compressed),
      size := compressed.length, status := .warning }
  else
    { url := some (baseUrl ++ "#annoted=" ++ compressed),
      size := compressed.length, status := .safe }

/-- Claim C6: the reported size is the compressed length; above the
hard limit (8000) the result is blocked with no URL; above only the
safe limit (6000) a URL is returned with warning status; otherwise a
URL is returned with safe status. -/
theorem generateShareUrl_size_gate (compressed baseUrl : String) :
    (generateShareUrl compressed baseUrl).size = compressed.length ∧
    (compressed.length > HARD_LIMIT →
      generateShareUrl compressed baseUrl =
        { url := none, size := compressed.length, status := .blocked }) ∧
    (compressed.length > SAFE_LIMIT → compressed.length ≤ HARD_LIMIT →
      generateShareUrl compressed baseUrl =
        { url := some (baseUrl ++ "#annoted=" ++ compressed),
          size := compressed.length, status := .warning }) ∧
    (compressed.length ≤ SAFE_LIMIT →
      generateShareUrl compressed baseUrl =
        { url := some (baseUrl ++ "#annoted=" ++ compressed),
          size := compressed.length, status := .safe }) := by
  refine ⟨?_, fun h => ?_, fun h1 h2 => ?_, fun h => ?_⟩
  · unfold generateShareUrl
    split_ifs <;> rfl
  · unfold generateShareUrl
    rw [if_pos h]
  · unfold generateShareUrl
    rw [if_neg (Nat.not_lt.mpr h2), if_pos h1]
  · unfold generateShareUrl
    rw [if_neg (Nat.not_lt.mpr (h.trans (by decide : SAFE_LIMIT ≤ HARD_LIMIT))),
      if_neg (Nat.not_lt.mpr h)]

/-- Witness for C6: a 3-character compressed payload is under the safe
limit and yields a URL with safe status. -/
theorem generateShareUrl_size_gate_witness :
    generateShareUrl "abc" "https://example.com/p" =
      { url := some ("https://example.com/p" ++ "#annoted=" ++ "abc"),
        size := ("abc" : String).length, status := .safe } :=
  (generateShareUrl_size_gate "abc" "https://example.com/p").2.2.2 (by decide)

/-! ## Full-page tile coverage (C7)

`captureFullPageInternal` computes `slicesX = Math.ceil(pageWidth /
viewportWidth)` and `slicesY = Math.ceil(pageHeight / viewportHeight)`
and captures one slice per `(x, y)` pair with `y` as the outer loop,
scrolling to `min(x*viewportWidth, pageWidth - viewportWidth)` (clamped
so the last tile aligns with the trailing page edge).  `stitchImages`
then draws slice `(x, y)` at `(x*viewportWidth, y*viewportHeight)`,
clipping the last column and row to the remaining page extent. -/

/-- `Math.ceil(page / viewport)` for natural page and viewport sizes. -/
def slicesFor (page viewport : Nat) : Nat := page ⌈/⌉ viewport

/-- One captured tile: its column and row index and the scroll offset
it is captured at (JS numbers; the clamp can go negative when the page
is smaller than the viewport, hence integers). -/
structure Tile where
  ix : Nat
  iy : Nat
  scrollX : Int
  scrollY : Int
deriving DecidableEq, Repr

/-- The capture loop: row-major (outer `y`, inner `x`) over the slice
grid, with the source's scroll clamp. -/
def captureTiles (pw ph vw vh : Nat) : List Tile :=
  (List.range (slicesFor ph vh)).flatMap fun y =>
    (List.range (slicesFor pw vw)).map fun x =>
      { ix := x, iy := y,
        scrollX := min ((x : Int) * vw) ((pw : Int) - vw),
        scrollY := min ((y : Int) * vh) ((ph : Int) - vh) }

/-- One stitched slice: indices, destination position, and the drawn
width and height (full viewport except in the last column and row,
which are clipped to the remaining page extent). -/
structure StitchRect where
  ix : Nat
  iy : Nat
  destX : Nat
  destY : Nat
  width : Int
  height : Int
deriving DecidableEq, Repr

/-- The stitching loop of `stitchImages`. -/
def stitchRects (sx sy vw vh pw ph : Nat) : List StitchRect :=
  (List.range sy).flatMap fun y =>
    (List.range sx).map fun x =>
      { ix := x, iy := y, destX := x * vw, destY := y * vh,
        width := if x = sx - 1 then (pw : Int) - (x * vw : Nat) else (vw : Int),
        height := if y = sy - 1 then (ph : Int) - (y * vh : Nat) else (vh : Int) }

/-- Length of a row-major double loop. -/
theorem rowMajor_length (m n : Nat) (f : Nat → Nat → α) :
    ((List.range m).flatMap fun j => (List.range n).map fun i => f i j).length = m * n := by
  induction m with
  | zero => simp
  | succ k ih =>
      rw [List.range_succ, List.flatMap_append]
      simp only [List.length_append, ih]
      simp [Nat.succ_mul]

/-- Element `j * n + i` of a row-major double loop is `f i j`. -/
theorem rowMajor_getElem? (m n : Nat) (f : Nat → Nat → α) (i j : Nat)
    (hi : i < n) (hj : j < m) :
    ((List.range m).flatMap fun j => (List.range n).map fun i => f i j)[j * n + i]? =
      some (f i j) := by
  induction m with
  | zero => exact absurd hj (Nat.not_lt_zero _)
  | succ k ih =>
      rw [List.range_succ, List.flatMap_append, List.getElem?_append]
      rcases Nat.lt_or_ge j k with hjk | hjk
      · have hlen : j * n + i <
            ((List.range k).flatMap fun j => (List.range n).map fun i => f i j).length := by
          rw [rowMajor_length]
          calc j * n + i < j * n + n := by omega
            _ = (j + 1) * n := by ring
            _ ≤ k * n := Nat.mul_le_mul_right _ (by omega)
        rw [if_pos hlen]
        exact ih hjk
      · have hjk' : j = k := by omega
        subst hjk'
        have hlen : ¬ j * n + i <
            ((List.range j).flatMap fun j2 => (List.range n).map fun i => f i j2).length := by
          rw [rowMajor_length]
          omega
        rw [if_neg hlen, rowMajor_length]
        have hsub : j * n + i - j * n = i := by omega
        rw [hsub]
        simp [List.getElem?_range hi]

/-- The slice count is positive for a positive page dimension. -/
theorem slicesFor_pos (a b : Nat) (ha : 0 < a) (hb : 0 < b) :
    0 < slicesFor a b := by
  by_contra h
  push_neg at h
  have h0 : slicesFor a b ≤ 0 := h
  have := (ceilDiv_le_iff_le_mul hb).mp h0
  omega

/-- One slice fewer would not cover the page: the slice count is the
least viewport multiple reaching the page size. -/
theorem slicesFor_pred_mul_lt (a b : Nat) (ha : 0 < a) (hb : 0 < b) :
    (slicesFor a b - 1) * b < a := by
  have hpos : 0 < slicesFor a b := slicesFor_pos a b ha hb
  by_contra h
  push_neg at h
  have hle : slicesFor a b ≤ slicesFor a b - 1 :=
    (ceilDiv_le_iff_le_mul hb).mpr (by rw [mul_comm]; exact h)
  omega

/-- Claim C7: full-page capture produces exactly
`ceil(W/w) * ceil(H/h)` tiles, in row-major order (tile number
`y * slicesX + x` is the tile at column `x`, row `y`, captured at the
clamped scroll offset), and stitching draws every tile inside the page:
the last column and row are clipped to the true remainders
`pageWidth - destX` and `pageHeight - destY`, every other tile is a
full viewport, and no tile extends past the page edges. -/
theorem tile_coverage (pw ph vw vh : Nat) (hvw : 0 < vw) (hvh : 0 < vh)
    (hpw : 0 < pw) (hph : 0 < ph) :
    (captureTiles pw ph vw vh).length = slicesFor pw vw * slicesFor ph vh ∧
    (∀ x y, x < slicesFor pw vw → y < slicesFor ph vh →
      (captureTiles pw ph vw vh)[y * slicesFor pw vw + x]? =
        some { ix := x, iy := y,
               scrollX := min ((x : Int) * vw) ((pw : Int) - vw),
               scrollY := min ((y : Int) * vh) ((ph : Int) - vh) }) ∧
    (∀ r ∈ stitchRects (slicesFor pw vw) (slicesFor ph vh) vw vh pw ph,
      (r.ix = slicesFor pw vw - 1 → r.width = (pw : Int) - r.destX) ∧
      (r.ix ≠ slicesFor pw vw - 1 → r.width = (vw : Int)) ∧
      (r.iy = slicesFor ph vh - 1 → r.height = (ph : Int) - r.destY) ∧
      (r.iy ≠ slicesFor ph vh - 1 → r.height = (vh : Int)) ∧
      (r.destX : Int) + r.width ≤ (pw : Int) ∧
      (r.destY : Int) + r.height ≤ (ph : Int)) := by
  refine ⟨?_, ?_, ?_⟩
  · rw [captureTiles, rowMajor_length, Nat.mul_comm]
  · intro x y hx hy
    exact rowMajor_getElem? (slicesFor ph vh) (slicesFor pw vw) _ x y hx hy
  · intro r hr
    rw [stitchRects] at hr
    rw [List.mem_flatMap] at hr
    obtain ⟨y, hy, hr⟩ := hr
    rw [List.mem_map] at hr
    obtain ⟨x, hx, rfl⟩ := hr
    rw [List.mem_range] at hx hy
    dsimp only
    refine ⟨fun hlast => ?_, fun hnot => ?_, fun hlast => ?_, fun hnot => ?_, ?_, ?_⟩
    · rw [if_pos hlast]
    · rw [if_neg hnot]
    · rw [if_pos hlast]
    · rw [if_neg hnot]
    · by_cases hlast : x = slicesFor pw vw - 1
      · rw [if_pos hlast]
        push_cast
        omega
      · rw [if_neg hlast]
        have hnat : x * vw + vw ≤ pw := by
          have h1 : x + 1 ≤ slicesFor pw vw - 1 := by omega
          have h2 : (x + 1) * vw ≤ (slicesFor pw vw - 1) * vw :=
            Nat.mul_le_mul_right _ h1
          have h3 := slicesFor_pred_mul_lt pw vw hpw hvw
          calc x * vw + vw = (x + 1) * vw := by ring
            _ ≤ (slicesFor pw vw - 1) * vw := h2
            _ ≤ pw := le_of_lt h3
        exact_mod_cast hnat
    · by_cases hlast : y = slicesFor ph vh - 1
      · rw [if_pos hlast]
        push_cast
        omega
      · rw [if_neg hlast]
        have hnat : y * vh + vh ≤ ph := by
          have h1 : y + 1 ≤ slicesFor ph vh - 1 := by omega
          have h2 : (y + 1) * vh ≤ (slicesFor ph vh - 1) * vh :=
            Nat.mul_le_mul_right _ h1
          have h3 := slicesFor_pred_mul_lt ph vh hph hvh
          calc y * vh + vh = (y + 1) * vh := by ring
            _ ≤ (slicesFor ph vh - 1) * vh := h2
            _ ≤ ph := le_of_lt h3
        exact_mod_cast hnat

/-- Witness for C7 at a 250×300 page with a 100×200 viewport:
3 columns, 2 rows, 6 tiles. -/
theorem tile_coverage_witness :
    (captureTiles 250 300 100 200).length = slicesFor 250 100 * slicesFor 300 200 :=
  (tile_coverage 250 300 100 200 (by decide) (by decide) (by decide) (by decide)).1

/-! ## PDF export failure handling (C8)

`exportAsPDF` computes the PDF page dimensions (width fixed at 210 mm,
height scaled by the image aspect ratio, orientation from their
comparison) and hands them to the jsPDF library inside a try/catch.
The library is external, so it is abstracted as a function that either
succeeds or fails.  The catch block logs the error and calls
`downloadImage(imageDataUrl, "annoted-fullpage")` — a PNG download. -/

/-- jsPDF page orientation. -/
inductive PDFOrientation
  | portrait
  | landscape
deriving DecidableEq, Repr

/-- The document parameters `exportAsPDF` passes to jsPDF. -/
structure PDFSpec where
  orientation : PDFOrientation
  widthMM : ℚ
  heightMM : ℚ
deriving DecidableEq, Repr

/-- The dimension computation of `exportAsPDF`: A4 width, height by
aspect ratio, portrait when taller than wide. -/
def pdfSpecFor (width height : ℚ) : PDFSpec :=
  { orientation := if 210 * (height / width) > 210 then .portrait else .landscape
    widthMM := 210
    heightMM := 210 * (height / width) }

/-- What the user ends up downloading from `exportAsPDF`. -/
inductive ExportOutcome
  | pdfDownload (spec : PDFSpec)
  | pngFallbackDownload (imageDataUrl : String) (baseName : String)
deriving DecidableEq, Repr

/-- `exportAsPDF`: build the PDF through the (external, fallible) jsPDF
engine; on any failure the catch block downloads the image as a PNG
named `annoted-fullpage` instead, and no error reaches the caller. -/
def exportAsPDF (pdfEngine : PDFSpec → Option Unit) (imageDataUrl : String)
    (width height : ℚ) : ExportOutcome :=
  match pdfEngine (pdfSpecFor width height) with
  | some _ => .pdfDownload (pdfSpecFor width height)
  | none => .pngFallbackDownload imageDataUrl "annoted-fullpage"

/-- Counterexample to C8: at a concrete failing input (a 100×200 image
with a PDF engine that fails), `exportAsPDF` silently substitutes a PNG
download of the stitched image for the requested PDF — the claim says
the error is surfaced with no alternate format substituted, but the
catch block swallows the error and the outcome is a PNG download. -/
theorem exportAsPDF_silent_fallback_counterexample :
    exportAsPDF (fun _ => none) "data:image/png;small" 100 200 =
      ExportOutcome.pngFallbackDownload "data:image/png;small" "annoted-fullpage" := rfl

/-- Amended C8: whenever PDF generation fails during full-page export,
the error is caught (never surfaced to the caller) and the stitched
image is downloaded as a PNG named `annoted-fullpage` instead. -/
theorem exportAsPDF_fallback (pdfEngine : PDFSpec → Option Unit)
    (imageDataUrl : String) (width height : ℚ)
    (hfail : pdfEngine (pdfSpecFor width height) = none) :
    exportAsPDF pdfEngine imageDataUrl width height =
      ExportOutcome.pngFallbackDownload imageDataUrl "annoted-fullpage" := by
  unfold exportAsPDF
  rw [hfail]

/-- Witness for the amended C8 at a concrete failing engine. -/
theorem exportAsPDF_fallback_witness :
    exportAsPDF (fun _ => none) "data:image/png;img" 300 150 =
      ExportOutcome.pngFallbackDownload "data:image/png;img" "annoted-fullpage" :=
  exportAsPDF_fallback (fun _ => none) "data:image/png;img" 300 150 rfl

/-! ## Highlighter rendering (C9)

`redrawAll` in the canonical content script renders both pen and
highlighter paths with `strokeStyle = getColorValue(ann.color)`, and
sets `globalAlpha` to 0.35 for highlighter paths and 1.0 for pen paths.
The brighter mapping `getHighlighterColorValue` exists in the shared
utils/canvas.ts but is not called by this `redrawAll`. -/

/-- utils/canvas.ts `getColorValue`. -/
def getColorValue : Color → String
  | .white => "#ffffff"
  | .red => "#ff3b30"
  | .yellow => "#ffcc00"
  | .blue => "#007aff"

/-- utils/canvas.ts `getHighlighterColorValue` (neon highlighter
palette). -/
def getHighlighterColorValue : Color → String
  | .white => "#FFFF00"
  | .red => "#FF69B4"
  | .yellow => "#FFEB3B"
  | .blue => "#00FFFF"

/-- The canvas stroke settings a path is rendered with. -/
structure StrokeStyle where
  strokeStyle : String
  lineWidth : Int
  globalAlpha : ℚ
deriving DecidableEq, Repr

/-- The settings `redrawAll` applies to a pen or highlighter path:
`getColorValue` of the record's color, the record's width defaulting
to 4, and alpha 0.35 for highlighter, 1.0 otherwise. -/
def pathStrokeStyle (ann : Ann) : StrokeStyle :=
  { strokeStyle := getColorValue ann.color
    lineWidth := ann.penWidth.getD 4
    globalAlpha := if ann.type = .highlighter then 35 / 100 else 1 }

/-- A red pen stroke. -/
def samplePenRed : Ann :=
  { id := "p", type := .pen, start := ⟨0, 0⟩, endPt := none,
    path := some [⟨0, 0⟩, ⟨1, 0⟩], color := .red, shapeMode := none,
    penWidth := some 4 }

/-- A red highlighter stroke. -/
def sampleHighlighterRed : Ann :=
  { id := "h", type := .highlighter, start := ⟨0, 0⟩, endPt := none,
    path := some [⟨0, 0⟩, ⟨1, 0⟩], color := .red, shapeMode := none,
    penWidth := some 4 }

/-- Counterexample to C9: for the logical color red, `redrawAll`
renders a highlighter stroke with exactly the same hex value as a pen
stroke (`#ff3b30`), not with the distinct brighter mapping — the hex
does not depend on which tool drew it. -/
theorem highlighter_same_hex_counterexample :
    (pathStrokeStyle sampleHighlighterRed).strokeStyle =
        (pathStrokeStyle samplePenRed).strokeStyle ∧
      (pathStrokeStyle sampleHighlighterRed).strokeStyle ≠
        getHighlighterColorValue Color.red := by
  exact ⟨rfl, by decide⟩

/-- Amended C9: a highlighter stroke is rendered with fixed partial
opacity 0.35 (a pen stroke with full opacity 1.0), but with the same
hex color `getColorValue` as a pen stroke of the same logical color;
the distinct brighter mapping `getHighlighterColorValue` is not used by
`redrawAll`. -/
theorem highlighter_opacity_same_hex (a : Ann) :
    (a.type = .highlighter → (pathStrokeStyle a).globalAlpha = 35 / 100) ∧
    (a.type ≠ .highlighter → (pathStrokeStyle a).globalAlpha = 1) ∧
    (pathStrokeStyle a).strokeStyle = getColorValue a.color := by
  refine ⟨fun h => ?_, fun h => ?_, rfl⟩
  · simp [pathStrokeStyle, h]
  · simp [pathStrokeStyle, h]

/-- Witness for the amended C9 at the concrete red highlighter. -/
theorem highlighter_opacity_same_hex_witness :
    (pathStrokeStyle sampleHighlighterRed).globalAlpha = 35 / 100 :=
  (highlighter_opacity_same_hex sampleHighlighterRed).1 rfl

/-! ## Move-tool hit testing window (C10)

With the move tool, pointer-down hit testing of canvas records scans
only indices from `length - 1` down to `max(0, length - 5)` (a
"check last few" shortcut, checking the shape box before the path),
while the eraser's `hitTestAnnotation` scans the whole array from the
top (checking the path before the shape box). -/

/-- Proximity test to a recorded path: within 20 pixels of some path
point (`sqrt(dx^2 + dy^2) < 20`, equivalently `dx^2 + dy^2 < 400`). -/
def hitNearPath (x y : Int) (path : List Point) : Bool :=
  path.any fun p =>
    decide ((x - p.x) * (x - p.x) + (y - p.y) * (y - p.y) < 400)

/-- Padded bounding-box test for a shape record (10-pixel margin). -/
def hitShapeBox (x y : Int) (s e : Point) : Bool :=
  decide (min s.x e.x - 10 ≤ x) && decide (x ≤ max s.x e.x + 10) &&
    decide (min s.y e.y - 10 ≤ y) && decide (y ≤ max s.y e.y + 10)

/-- One record's hit test in `hitTestAnnotation` (eraser): a non-empty
path is tested by proximity, otherwise a shape by its padded box. -/
def annHit (x y : Int) (ann : Ann) : Bool :=
  match ann.path with
  | some (p :: ps) => hitNearPath x y (p :: ps)
  | _ =>
    match ann.endPt with
    | some e => hitShapeBox x y ann.start e
    | none => false

/-- The canvas-record phase of the eraser's `hitTestAnnotation`: scan
the whole array from the most recent record down, returning the first
hit.  (The text phase that precedes it in the source reads live DOM
bounding boxes and is outside this embedding.) -/
def hitTestAnnCanvas (anns : List Ann) (x y : Int) : Option Ann :=
  anns.reverse.find? (annHit x y)

/-- One record's hit test in the move branch of `handleMouseDown`: the
shape box is checked first, then a non-empty path by proximity. -/
def moveAnnHit (x y : Int) (ann : Ann) : Bool :=
  match ann.endPt with
  | some e => hitShapeBox x y ann.start e
  | none =>
    match ann.path with
    | some (p :: ps) => hitNearPath x y (p :: ps)
    | _ => false

/-- The indices the move tool scans: `length - 1` down to
`max(0, length - 5)`. -/
def moveHitIndices (n : Nat) : List Nat :=
  (List.range' (n - min n 5) (min n 5)).reverse

/-- The canvas-record phase of the move tool's pointer-down hit test:
scan only the last five indices, most recent first, returning the index
grabbed for dragging. -/
def moveHitTestCanvas (anns : List Ann) (x y : Int) : Option Nat :=
  (moveHitIndices anns.length).findSome? fun i =>
    match anns[i]? with
    | some ann => if moveAnnHit x y ann then some i else none
    | none => none

/-- A pen stroke whose two path points sit at `(k, k)`, `(k+1, k)`. -/
def strokeAt (k : Int) : Ann :=
  { id := "s", type := .pen, start := ⟨k, k⟩, endPt := none,
    path := some [⟨k, k⟩, ⟨k + 1, k⟩], color := .red, shapeMode := none,
    penWidth := some 4 }

/-- Six strokes whose oldest entry is at the origin and whose five
newer entries are far away. -/
def sixStrokes : List Ann :=
  [strokeAt 0, strokeAt 1000, strokeAt 2000, strokeAt 3000,
   strokeAt 4000, strokeAt 5000]

/-- Claim C10: the move tool can only ever grab one of the five most
recently added canvas records — any returned index lies in
`[length - 5, length)` — while the eraser's full-array hit test can
still return an older record: with six strokes where only the oldest
is under the pointer, the eraser finds it and the move tool finds
nothing. -/
theorem move_hit_only_recent :
    (∀ (anns : List Ann) (x y : Int) (i : Nat),
        moveHitTestCanvas anns x y = some i →
        anns.length - 5 ≤ i ∧ i < anns.length) ∧
    (hitTestAnnCanvas sixStrokes 0 0 = some (strokeAt 0) ∧
      moveHitTestCanvas sixStrokes 0 0 = none) := by
  constructor
  · intro anns x y i h
    unfold moveHitTestCanvas at h
    obtain ⟨l₁, j, l₂, heq, hfj, -⟩ := List.findSome?_eq_some_iff.mp h
    have hj : j ∈ moveHitIndices anns.length := by
      rw [heq]
      exact List.mem_append_right _ (List.mem_cons_self _ _)
    have hij : i = j := by
      split at hfj
      · split at hfj
        · exact (Option.some.inj hfj).symm
        · exact Option.noConfusion hfj
      · exact Option.noConfusion hfj
    subst hij
    unfold moveHitIndices at hj
    rw [List.mem_reverse, List.mem_range'_1] at hj
    omega
  · exact ⟨by decide, by decide⟩

/-- Witness for C10: with two strokes and the pointer over the newer
one, the move tool grabs index 1, which lies in the last-five window. -/
theorem move_hit_only_recent_witness :
    ([strokeAt 1000, strokeAt 0] : List Ann).length - 5 ≤ 1 ∧
      1 < ([strokeAt 1000, strokeAt 0] : List Ann).length :=
  move_hit_only_recent.1 [strokeAt 1000, strokeAt 0] 0 0 1 (by decide)

end Annoted
